import Mathlib

/-!
# Audio: playback session, playlist resolver and control loop

A shallow embedding of `Audio.cpp`, `Audio.h` and `main.cpp`.

* The audio backend (FMOD) is an external library.  The embedding keeps, for the
  one sound and the one channel a session owns, the values the session wrote to
  them, and every operation also returns the list of backend calls it issued.
  Values the backend answers with (the lengths of a stream, the position of a
  channel) are arguments of the operations that ask for them.
* Every backend call is wrapped in `FMOD_ERRCHECK`, which throws when the call
  fails; the session operations below describe the executions in which the
  backend calls succeed.
* `double` and `float` values are exact rationals, `int` values are integers,
  `unsigned` subtraction wraps modulo `2 ^ 32`.
-/

namespace AudioSystem

/-! ## Backend objects -/

/-- The two `FMOD_TIMEUNIT` values the session uses. -/
inductive TimeUnit where
  | MS
  | PCM
  deriving DecidableEq, Repr

/-- An opened stream (`FMOD::Sound`): the lengths `getLength` reports for it,
in milliseconds and in PCM samples. -/
structure Sound where
  lengthMs : Nat
  lengthPcm : Nat
  deriving DecidableEq, Repr

/-- A playback channel (`FMOD::Channel`): the values last written to it. -/
structure Channel where
  paused : Bool
  volume : ℚ
  looping : Bool
  position : Nat
  positionUnit : TimeUnit
  userData : Bool
  callback : Bool
  deriving DecidableEq, Repr

/-- A call to the backend, with the arguments that matter. -/
inductive Call where
  | release (target : Option Sound)
  | createSound (file : String)
  | playSound (paused : Bool)
  | setUserData
  | setCallback
  | getLength (unit : TimeUnit)
  | setVolume (volume : ℚ)
  | setMode (looping : Bool)
  | setPaused (paused : Bool)
  | setPosition (position : Nat) (unit : TimeUnit)
  deriving DecidableEq, Repr

/-! ## Arithmetic helpers -/

/-- Model of `std::clamp(v, lo, hi)`: `(v < lo) ? lo : (hi < v) ? hi : v`. -/
def clamp {α : Type} [LinearOrder α] (v lo hi : α) : α :=
  if v < lo then lo else if hi < v then hi else v

/-- Model of `static_cast<unsigned>(x)` of a `double`: truncation, for `-1 < x < 2 ^ 32`. -/
def toUnsigned (x : ℚ) : Nat :=
  Int.toNat ⌊x⌋

/-- Subtraction of `unsigned` values, modulo `2 ^ 32`. -/
def unsignedSub (a b : Nat) : Nat :=
  (a + 4294967296 - b % 4294967296) % 4294967296

/-! ## The playback session (`class Audio`) -/

/-- The data members of `Audio`, with their initial values (`Audio.h`).
A null `m_pSound` or `m_pChannel` is `none`. -/
structure Audio where
  m_pSound : Option Sound := none
  m_pChannel : Option Channel := none
  m_fileName : String := ""
  m_duration : ℚ := 0
  m_end : Bool := true
  m_volume : Int := 100
  m_paused : Bool := true
  m_loop : Bool := false
  deriving DecidableEq, Repr

namespace Audio

/-- The constructor `Audio(engine)`: every member has its initial value. -/
def new : Audio := {}

def isEnd (s : Audio) : Bool := s.m_end

def getFileName (s : Audio) : String := s.m_fileName

def getDuration (s : Audio) : ℚ := s.m_duration

def getVolume (s : Audio) : Int := s.m_volume

def isPaused (s : Audio) : Bool := s.m_paused

def isLoop (s : Audio) : Bool := s.m_loop

/-- The destructor `~Audio()`: releases `m_pSound`, whatever the state. -/
def destroy (s : Audio) : List Call :=
  [Call.release s.m_pSound]

/-- Model of `Audio::load(file)`; `snd` is the stream `createSound` opens for `file`. -/
def load (file : String) (snd : Sound) (s : Audio) : Audio × List Call :=
  let released : List Call := if !s.m_end then [Call.release s.m_pSound] else []
  let volume : ℚ := (s.m_volume : ℚ) / 100
  let channel : Channel :=
    { paused := true, volume := volume, looping := s.m_loop, position := 0,
      positionUnit := TimeUnit.MS, userData := true, callback := true }
  ({ s with
      m_pSound := some snd
      m_pChannel := some channel
      m_fileName := file
      m_duration := (snd.lengthMs : ℚ) / 1000
      m_end := false
      m_paused := true },
   released ++
     [Call.createSound file, Call.playSound true, Call.setUserData, Call.setCallback,
      Call.getLength TimeUnit.MS, Call.setVolume volume] ++
     (if s.m_loop then [Call.setMode true] else []))

/-- Model of `Audio::play()`. -/
def play (s : Audio) : Audio × List Call :=
  if !s.m_end then
    ({ s with
        m_paused := false
        m_pChannel := s.m_pChannel.map fun c => { c with paused := false } },
     [Call.setPaused false])
  else (s, [])

/-- Model of `Audio::pause()`. -/
def pause (s : Audio) : Audio × List Call :=
  let s1 : Audio := { s with m_paused := true }
  if !s1.m_end then
    ({ s1 with m_pChannel := s1.m_pChannel.map fun c => { c with paused := true } },
     [Call.setPaused true])
  else (s1, [])

/-- Model of `Audio::setVolume(volume)`. -/
def setVolume (volume : Int) (s : Audio) : Audio × List Call :=
  let s1 : Audio := { s with m_volume := clamp volume 0 100 }
  if !s1.m_end then
    let v : ℚ := (s1.m_volume : ℚ) / 100
    ({ s1 with m_pChannel := s1.m_pChannel.map fun c => { c with volume := v } },
     [Call.setVolume v])
  else (s1, [])

/-- The length `m_pSound->getLength(&endPos, FMOD_TIMEUNIT_PCM)` leaves in
`endPos`, which starts as `0`. -/
def endPos (s : Audio) : Nat :=
  match s.m_pSound with
  | some snd => snd.lengthPcm
  | none => 0

/-- Model of `Audio::setTime(time)`. -/
def setTime (time : ℚ) (s : Audio) : Audio × List Call :=
  if !s.m_end then
    let time := clamp time 0 s.m_duration
    if time < s.m_duration then
      let pos := toUnsigned (time * 1000)
      ({ s with
          m_pChannel := s.m_pChannel.map fun c =>
            { c with position := pos, positionUnit := TimeUnit.MS } },
       [Call.setPosition pos TimeUnit.MS])
    else
      let pos := unsignedSub s.endPos 1
      ({ s with
          m_pChannel := s.m_pChannel.map fun c =>
            { c with position := pos, positionUnit := TimeUnit.PCM } },
       [Call.getLength TimeUnit.PCM, Call.setPosition pos TimeUnit.PCM])
  else (s, [])

/-- Model of `Audio::setLoop(loop)`. -/
def setLoop (loop : Bool) (s : Audio) : Audio × List Call :=
  let s1 : Audio := { s with m_loop := loop }
  if !s1.m_end then
    ({ s1 with m_pChannel := s1.m_pChannel.map fun c => { c with looping := s1.m_loop } },
     [Call.setMode s1.m_loop])
  else (s1, [])

/-- Model of `Audio::getTime()`; `position` is what `getPosition` reports, in
milliseconds, when it is asked. -/
def getTime (position : Nat) (s : Audio) : ℚ :=
  if !s.m_end then
    let time : ℚ := (position : ℚ) / 1000
    if time ≤ s.m_duration then time else s.m_duration
  else s.m_duration

end Audio

/-- The channel callback installed by `load`.  `callbackEnd` is the value of the
enumerator `FMOD_CHANNELCONTROL_CALLBACK_END` (declared in the backend's
headers); `userData` is the session `getUserData` yields, if any. -/
def FMOD_ChannelControl_Callback (callbackEnd : Nat) (controltype callbacktype : Nat)
    (userData : Option Audio) : Option Audio :=
  if controltype = callbackEnd then
    match userData with
    | some pAudio => some { pAudio with m_end := true }
    | none => none
  else userData

/-! ## The playlist resolver (`isSupportedType`, `getMusicList`) -/

/-- An exception leaving a function. -/
inductive Exn where
  | out_of_range
  deriving DecidableEq, Repr

/-- An entry of the directory being listed: the file name of its path, and
whether the path exists and is a regular file. -/
structure DirEntry where
  filename : String
  isRegularFile : Bool
  deriving DecidableEq, Repr

/-- The extensions `Supported_Audio_Types` holds. -/
def Supported_Audio_Types : List String :=
  ["wav", "mp3", "flac", "ogg", "aac"]

/-- Index of the rightmost occurrence of `c`. -/
def rfind (c : Char) : List Char → Option Nat
  | [] => none
  | x :: xs =>
    match rfind c xs with
    | some i => some (i + 1)
    | none => if x = c then some 0 else none

/-- Model of `std::filesystem::path::extension()` of a file name: the part from the
rightmost period on; empty when there is no period, when the only period is
the first character, and for the names `.` and `..`. -/
def extension (filename : String) : String :=
  let cs := filename.toList
  if cs = ['.'] ∨ cs = ['.', '.'] then ""
  else
    match rfind '.' cs with
    | none => ""
    | some 0 => ""
    | some (i + 1) => String.mk (cs.drop (i + 1))

/-- Model of `std::string::substr(pos)`: throws `std::out_of_range` when `pos > size()`. -/
def substr (s : String) (pos : Nat) : Except Exn String :=
  if pos > s.length then Except.error Exn.out_of_range
  else Except.ok (String.mk (s.toList.drop pos))

/-- Model of `std::transform(..., tolower)`. -/
def toLowerAll (s : String) : String :=
  String.mk (s.toList.map Char.toLower)

/-- Model of `AudioSystem::isSupportedType(path)`. -/
def isSupportedType (path : DirEntry) : Except Exn Bool :=
  if path.isRegularFile then
    match substr (extension path.filename) 1 with
    | Except.error e => Except.error e
    | Except.ok extensionName =>
      if toLowerAll extensionName ∈ Supported_Audio_Types then Except.ok true
      else Except.ok false
  else Except.ok false

/-- The loop of `getMusicList`, `musicList` being what was collected so far. -/
def getMusicListLoop (musicList : List String) : List DirEntry → Except Exn (List String)
  | [] => Except.ok musicList
  | entry :: rest =>
    match isSupportedType entry with
    | Except.error e => Except.error e
    | Except.ok true => getMusicListLoop (musicList ++ [entry.filename]) rest
    | Except.ok false => getMusicListLoop musicList rest

/-- Model of `getMusicList(audioPath)`, given the entries the directory iterator yields,
in its order.  A path is stood for by its file name. -/
def getMusicList (entries : List DirEntry) : Except Exn (List String) :=
  getMusicListLoop [] entries

/-! ## The control loop (`wmain`) -/

/-- The variables of `wmain` the two loops share. -/
structure Player where
  musicList : List String
  index : Int
  audio : Audio
  deriving DecidableEq, Repr

/-- Model of `musicList[index]`, defined when the index is inside the list. -/
def trackAt (musicList : List String) (index : Int) : Option String :=
  if 0 ≤ index then musicList[index.toNat]? else none

/-- Model of `static_cast<int>(musicList.size() - 1)`, for a non-empty list. -/
def lastIndex (musicList : List String) : Int :=
  (musicList.length : Int) - 1

/-- Model of `audio.load(musicList[index])`; `backend file` is the stream the backend
opens for `file`. -/
def loadCurrent (backend : String → Sound) (p : Player) : Option Player :=
  match trackAt p.musicList p.index with
  | some file => some { p with audio := (p.audio.load file (backend file)).1 }
  | none => none

/-- The common end of the cases `n`, `p` and `a`: the paused flag is read, the
track is loaded, and `play` is called when the session was not paused. -/
def reload (backend : String → Sound) (p : Player) : Option Player :=
  let pause := p.audio.isPaused
  match loadCurrent backend p with
  | some p1 => if !pause then some { p1 with audio := p1.audio.play.1 } else some p1
  | none => none

/-- One round of the command loop of `wmain` for the key `command`.
`position` is the position the backend reports if asked, `gen` the permutation
`std::shuffle` applies with the generator. -/
def handleCommand (backend : String → Sound) (position : Nat)
    (gen : List String → List String) (command : Char) (p : Player) : Option Player :=
  if command = ' ' then
    if p.audio.isPaused then some { p with audio := p.audio.play.1 }
    else some { p with audio := p.audio.pause.1 }
  else if command = 'l' then
    some { p with audio := (p.audio.setTime (p.audio.getTime position + 5)).1 }
  else if command = 'h' then
    some { p with audio := (p.audio.setTime (p.audio.getTime position - 5)).1 }
  else if command = 'k' then
    some { p with audio := (p.audio.setVolume (p.audio.getVolume + 2)).1 }
  else if command = 'j' then
    some { p with audio := (p.audio.setVolume (p.audio.getVolume - 2)).1 }
  else if command = 'c' then
    some { p with audio := (p.audio.setLoop (!p.audio.isLoop)).1 }
  else if command = 'n' then
    reload backend { p with index := clamp (p.index + 1) 0 (lastIndex p.musicList) }
  else if command = 'p' then
    reload backend { p with index := clamp (p.index - 1) 0 (lastIndex p.musicList) }
  else if command = 'a' then
    reload backend { p with musicList := gen p.musicList, index := 0 }
  else some p

/-- The end of one round of the tick loop: when the session has ended, the
index advances, the track is loaded and played. -/
def tickAdvance (backend : String → Sound) (p : Player) : Option Player :=
  if p.audio.isEnd then
    match loadCurrent backend
        { p with index := clamp (p.index + 1) 0 (lastIndex p.musicList) } with
    | some p1 => some { p1 with audio := p1.audio.play.1 }
    | none => none
  else some p

/-- The start of `wmain` after the argument check: the session is constructed,
the directory is listed; with an empty list the function returns `1`, which
destroys the session.  The result is the exit code and the backend calls of the
session on that path, or the player state after the first `load`. -/
def wmainStart (backend : String → Sound) (entries : List DirEntry) :
    Except Exn (Sum (Int × List Call) (Option Player)) :=
  let audio := Audio.new
  match getMusicList entries with
  | Except.error e => Except.error e
  | Except.ok musicList =>
    if musicList.isEmpty then Except.ok (Sum.inl (1, audio.destroy))
    else Except.ok (Sum.inr (loadCurrent backend { musicList := musicList, index := 0, audio := audio }))

/-! ## What the backend reports after a seek -/

/-- The position `getPosition(FMOD_TIMEUNIT_MS)` reports for a channel that has
not advanced since its last `setPosition`: that position, converted to whole
milliseconds by the backend conversion `toMs` when it was given in samples. -/
def Channel.positionMs (toMs : Nat → Nat) (c : Channel) : Nat :=
  match c.positionUnit with
  | TimeUnit.MS => c.position
  | TimeUnit.PCM => toMs c.position

/-- The position the backend reports for the channel of the session. -/
def Audio.reportedPosition (toMs : Nat → Nat) (s : Audio) : Nat :=
  match s.m_pChannel with
  | some c => c.positionMs toMs
  | none => 0

/-- Conversion of a sample count to whole milliseconds at `rate` samples a
second, rounding down. -/
def samplesToMs (rate : Nat) (samples : Nat) : Nat :=
  samples * 1000 / rate

/-! ## Reachable session states -/

/-- The states a session goes through: constructed, then any sequence of its
operations and of deliveries of the channel callback with the session as user
data. -/
inductive Reachable : Audio → Prop where
  | new : Reachable Audio.new
  | load (file : String) (snd : Sound) {s : Audio} :
      Reachable s → Reachable (s.load file snd).1
  | play {s : Audio} : Reachable s → Reachable s.play.1
  | pause {s : Audio} : Reachable s → Reachable s.pause.1
  | setVolume (volume : Int) {s : Audio} : Reachable s → Reachable (s.setVolume volume).1
  | setTime (time : ℚ) {s : Audio} : Reachable s → Reachable (s.setTime time).1
  | setLoop (loop : Bool) {s : Audio} : Reachable s → Reachable (s.setLoop loop).1
  | callback (callbackEnd controltype callbacktype : Nat) {s s1 : Audio} :
      Reachable s →
      FMOD_ChannelControl_Callback callbackEnd controltype callbacktype (some s) = some s1 →
      Reachable s1

/-- What holds of every reachable state: the duration is not negative, and a
session that has not ended has a sound and a channel. -/
def Inv (s : Audio) : Prop :=
  0 ≤ s.m_duration ∧
    (s.m_end = false → s.m_pSound.isSome = true ∧ s.m_pChannel.isSome = true)

/-! ## Sample inputs -/

/-- A one-second stream at 44100 samples a second. -/
def oneSecond : Sound := { lengthMs := 1000, lengthPcm := 44100 }

/-- A stream without samples. -/
def noSamples : Sound := { lengthMs := 0, lengthPcm := 0 }

/-- A session that has loaded `oneSecond`: loaded, paused, not ended. -/
def loadedSession : Audio := (Audio.new.load "a.wav" oneSecond).1

/-- A session that has loaded `oneSecond` and is playing. -/
def playingSession : Audio := loadedSession.play.1

/-- A session that has loaded `noSamples`. -/
def emptyStreamSession : Audio := (Audio.new.load "empty.wav" noSamples).1

/-- A session whose track has ended: the callback was delivered to
`playingSession` with both arguments `0`. -/
def endedSession : Audio := { playingSession with m_end := true }

/-- The backend of the samples: every file opens as `oneSecond`. -/
def sampleBackend : String → Sound := fun _ => oneSecond

/-- A player on three tracks, at the last one, playing. -/
def samplePlayer : Player :=
  { musicList := ["a.wav", "b.mp3", "c.flac"], index := 2, audio := playingSession }

/-- A directory with an audio file, a regular file without extension and
another audio file. -/
def sampleDirectory : List DirEntry :=
  [{ filename := "a.WAV", isRegularFile := true },
   { filename := "README", isRegularFile := true },
   { filename := "c.flac", isRegularFile := true }]

/-- The directory of the resolver example: `a.WAV`, `b.txt`, `c.flac`, `d.mp4`. -/
def exampleDirectory : List DirEntry :=
  [{ filename := "a.WAV", isRegularFile := true },
   { filename := "b.txt", isRegularFile := true },
   { filename := "c.flac", isRegularFile := true },
   { filename := "d.mp4", isRegularFile := true }]

/-! ## The resolver as it is described -/

/-- The entries the resolver is described to keep: regular files whose
extension, without the dot and lower-cased, is a supported one. -/
def keptEntry (entry : DirEntry) : Bool :=
  entry.isRegularFile &&
    decide (toLowerAll (String.mk ((extension entry.filename).toList.drop 1)) ∈
      Supported_Audio_Types)

/-! ## Basic facts -/

theorem clamp_eq_max_min {α : Type} [LinearOrder α] (v lo hi : α) (h : lo ≤ hi) :
    clamp v lo hi = max lo (min v hi) := by
  unfold clamp
  by_cases h1 : v < lo
  · rw [if_pos h1, min_eq_left (le_trans h1.le h), max_eq_left h1.le]
  · rw [if_neg h1]
    have h2 : lo ≤ v := not_lt.mp h1
    by_cases h3 : hi < v
    · rw [if_pos h3, min_eq_right h3.le, max_eq_right h]
    · rw [if_neg h3, min_eq_left (not_lt.mp h3), max_eq_right h2]

theorem clamp_ge {α : Type} [LinearOrder α] (v lo hi : α) (h : lo ≤ hi) :
    lo ≤ clamp v lo hi := by
  rw [clamp_eq_max_min v lo hi h]
  exact le_max_left _ _

theorem clamp_le {α : Type} [LinearOrder α] (v lo hi : α) (h : lo ≤ hi) :
    clamp v lo hi ≤ hi := by
  rw [clamp_eq_max_min v lo hi h]
  exact max_le h (min_le_right _ _)

theorem load_end (file : String) (snd : Sound) (s : Audio) :
    (s.load file snd).1.m_end = false := rfl

theorem play_end (s : Audio) : s.play.1.m_end = s.m_end := by
  unfold Audio.play
  cases h : s.m_end <;> simp [h]

theorem pause_end (s : Audio) : s.pause.1.m_end = s.m_end := by
  unfold Audio.pause
  cases h : s.m_end <;> simp [h]

theorem setVolume_end (volume : Int) (s : Audio) : (s.setVolume volume).1.m_end = s.m_end := by
  unfold Audio.setVolume
  cases h : s.m_end <;> simp [h]

theorem setLoop_end (loop : Bool) (s : Audio) : (s.setLoop loop).1.m_end = s.m_end := by
  unfold Audio.setLoop
  cases h : s.m_end <;> simp [h]

theorem setTime_end (time : ℚ) (s : Audio) : (s.setTime time).1.m_end = s.m_end := by
  unfold Audio.setTime
  cases h : s.m_end
  · simp only [Bool.not_false, if_true]
    split <;> rfl
  · simp [h]

/-! ## Invariant of the reachable states -/

theorem inv_new : Inv Audio.new := by
  refine ⟨le_refl _, ?_⟩
  intro h
  exact absurd h (by decide)

theorem inv_load (file : String) (snd : Sound) (s : Audio) : Inv (s.load file snd).1 := by
  refine ⟨?_, fun _ => ⟨rfl, rfl⟩⟩
  show (0 : ℚ) ≤ (snd.lengthMs : ℚ) / 1000
  positivity

theorem inv_play {s : Audio} (h : Inv s) : Inv s.play.1 := by
  unfold Audio.play
  cases he : s.m_end
  · obtain ⟨h1, h2⟩ := h
    obtain ⟨h3, h4⟩ := h2 he
    refine ⟨by simpa using h1, fun _ => ⟨by simpa using h3, ?_⟩⟩
    simpa using h4
  · simpa [he] using h

theorem inv_pause {s : Audio} (h : Inv s) : Inv s.pause.1 := by
  unfold Audio.pause
  cases he : s.m_end
  · obtain ⟨h1, h2⟩ := h
    obtain ⟨h3, h4⟩ := h2 he
    simp only [he, Bool.not_false, if_true]
    refine ⟨h1, fun _ => ⟨h3, ?_⟩⟩
    simpa using h4
  · simp only [he, Bool.not_true, Bool.false_eq_true, if_false]
    exact ⟨h.1, fun hc => absurd hc (by simp [he])⟩

theorem inv_setVolume (volume : Int) {s : Audio} (h : Inv s) : Inv (s.setVolume volume).1 := by
  unfold Audio.setVolume
  cases he : s.m_end
  · obtain ⟨h1, h2⟩ := h
    obtain ⟨h3, h4⟩ := h2 he
    simp only [he, Bool.not_false, if_true]
    refine ⟨h1, fun _ => ⟨h3, ?_⟩⟩
    simpa using h4
  · simp only [he, Bool.not_true, Bool.false_eq_true, if_false]
    exact ⟨h.1, fun hc => absurd hc (by simp [he])⟩

theorem inv_setLoop (loop : Bool) {s : Audio} (h : Inv s) : Inv (s.setLoop loop).1 := by
  unfold Audio.setLoop
  cases he : s.m_end
  · obtain ⟨h1, h2⟩ := h
    obtain ⟨h3, h4⟩ := h2 he
    simp only [he, Bool.not_false, if_true]
    refine ⟨h1, fun _ => ⟨h3, ?_⟩⟩
    simpa using h4
  · simp only [he, Bool.not_true, Bool.false_eq_true, if_false]
    exact ⟨h.1, fun hc => absurd hc (by simp [he])⟩

theorem inv_setTime (time : ℚ) {s : Audio} (h : Inv s) : Inv (s.setTime time).1 := by
  unfold Audio.setTime
  cases he : s.m_end
  · obtain ⟨h1, h2⟩ := h
    obtain ⟨h3, h4⟩ := h2 he
    simp only [Bool.not_false, if_true]
    split
    · refine ⟨h1, fun _ => ⟨h3, ?_⟩⟩
      simpa using h4
    · refine ⟨h1, fun _ => ⟨h3, ?_⟩⟩
      simpa using h4
  · simpa [he] using h

theorem inv_callback (callbackEnd controltype callbacktype : Nat) {s s1 : Audio} (h : Inv s)
    (hc : FMOD_ChannelControl_Callback callbackEnd controltype callbacktype (some s) = some s1) :
    Inv s1 := by
  unfold FMOD_ChannelControl_Callback at hc
  by_cases hk : controltype = callbackEnd
  · rw [if_pos hk] at hc
    have hs : s1 = { s with m_end := true } := (Option.some.inj hc).symm
    subst hs
    exact ⟨h.1, fun hf => absurd hf (by simp)⟩
  · rw [if_neg hk] at hc
    have hs : s = s1 := Option.some.inj hc
    subst hs
    exact h

theorem reachable_inv {s : Audio} (h : Reachable s) : Inv s := by
  induction h with
  | new => exact inv_new
  | load file snd _ _ => exact inv_load file snd _
  | play _ ih => exact inv_play ih
  | pause _ ih => exact inv_pause ih
  | setVolume volume _ ih => exact inv_setVolume volume ih
  | setTime time _ ih => exact inv_setTime time ih
  | setLoop loop _ ih => exact inv_setLoop loop ih
  | callback e ct cbt _ hc ih => exact inv_callback e ct cbt ih hc

theorem reachable_loadedSession : Reachable loadedSession :=
  Reachable.load "a.wav" oneSecond Reachable.new

theorem reachable_playingSession : Reachable playingSession :=
  Reachable.play reachable_loadedSession

theorem reachable_endedSession : Reachable endedSession :=
  Reachable.callback 0 0 0 reachable_playingSession rfl

/-! ## The end flag and the channel callback -/

/-- Whatever the value of the END enumerator and whatever `callbacktype` is, a
callback whose `controltype` equals that value sets the end flag of the session
attached as user data: `callbacktype` is never read. -/
theorem callback_ignores_callbacktype (callbackEnd callbacktype : Nat) (s : Audio) :
    FMOD_ChannelControl_Callback callbackEnd callbackEnd callbacktype (some s) =
      some { s with m_end := true } := by
  unfold FMOD_ChannelControl_Callback
  rw [if_pos rfl]

/-- A callback whose `controltype` differs from the END enumerator changes
nothing, also when `callbacktype` is END. -/
theorem callback_other_controltype (callbackEnd controltype : Nat) (s : Audio)
    (h : controltype ≠ callbackEnd) :
    FMOD_ChannelControl_Callback callbackEnd controltype callbackEnd (some s) = some s := by
  unfold FMOD_ChannelControl_Callback
  rw [if_neg h]

/-- C1, the code at the failing input: with the END enumerator `0`, a callback
delivered with `controltype = 0` and `callbacktype = 2`, which is not END, to a
playing session that has not ended sets the end flag of that session. -/
theorem callback_sets_end_for_other_callbacktype :
    playingSession.isEnd = false ∧ (2 : Nat) ≠ 0 ∧
      (FMOD_ChannelControl_Callback 0 0 2 (some playingSession)).map Audio.isEnd = some true :=
  ⟨rfl, by decide, rfl⟩

/-! ## `load` -/

/-- C2: from every session state and for every file and stream, after `load`
the end flag is false, the paused flag is true, the duration is the length of
the stream in milliseconds divided by 1000, the file name is the loaded path,
and the volume and the loop flag are what they were. -/
theorem load_resets_session (file : String) (snd : Sound) (s : Audio) :
    (s.load file snd).1.isEnd = false ∧
      (s.load file snd).1.isPaused = true ∧
      (s.load file snd).1.getDuration = (snd.lengthMs : ℚ) / 1000 ∧
      (s.load file snd).1.getFileName = file ∧
      (s.load file snd).1.getVolume = s.getVolume ∧
      (s.load file snd).1.isLoop = s.isLoop :=
  ⟨rfl, rfl, rfl, rfl, rfl, rfl⟩

/-! ## `getTime` -/

/-- C5: in every reachable session state and for every position `p` the
backend reports, `getTime` returns a value between `0` and the duration: the
duration when the session has ended, `p / 1000` when it has not and that is at
most the duration, the duration when `p / 1000` is more. -/
theorem getTime_within_duration (s : Audio) (p : Nat) (h : Reachable s) :
    0 ≤ s.getTime p ∧ s.getTime p ≤ s.getDuration ∧
      (s.isEnd = true → s.getTime p = s.getDuration) ∧
      (s.isEnd = false → (p : ℚ) / 1000 ≤ s.getDuration → s.getTime p = (p : ℚ) / 1000) ∧
      (s.isEnd = false → s.getDuration < (p : ℚ) / 1000 → s.getTime p = s.getDuration) := by
  have hD : 0 ≤ s.m_duration := (reachable_inv h).1
  have hp : (0 : ℚ) ≤ (p : ℚ) / 1000 := by positivity
  unfold Audio.getTime Audio.getDuration Audio.isEnd
  cases he : s.m_end
  · simp only [Bool.not_false, if_true]
    by_cases hle : (p : ℚ) / 1000 ≤ s.m_duration
    · rw [if_pos hle]
      exact ⟨hp, hle, fun hc => absurd hc (by simp), fun _ _ => rfl,
        fun _ hlt => absurd hle (not_le.mpr hlt)⟩
    · rw [if_neg hle]
      exact ⟨hD, le_refl _, fun _ => rfl, fun _ hc => absurd hc hle, fun _ _ => rfl⟩
  · simp only [Bool.not_true, Bool.false_eq_true, if_false]
    exact ⟨hD, le_refl _, fun _ => trivial, fun hc => absurd hc (by simp), fun _ _ => trivial⟩

/-- C5 at a playing one-second session and the reported position 500 ms. -/
theorem getTime_within_duration_witness :
    Reachable playingSession ∧ 0 ≤ playingSession.getTime 500 ∧
      playingSession.getTime 500 ≤ playingSession.getDuration ∧
      (playingSession.isEnd = true → playingSession.getTime 500 = playingSession.getDuration) :=
  ⟨reachable_playingSession,
    (getTime_within_duration playingSession 500 reachable_playingSession).1,
    (getTime_within_duration playingSession 500 reachable_playingSession).2.1,
    (getTime_within_duration playingSession 500 reachable_playingSession).2.2.1⟩

/-! ## `setVolume` -/

/-- C6: for every integer `v` and every session state, `getVolume` after
`setVolume v` is `v` clamped to `[0, 100]` (`0` below, `100` above, `v`
inside), and when the session has not ended the one backend call made sets the
channel volume to that value divided by 100. -/
theorem setVolume_then_getVolume (v : Int) (s : Audio) :
    (s.setVolume v).1.getVolume = max 0 (min v 100) ∧
      (v < 0 → (s.setVolume v).1.getVolume = 0) ∧
      (100 < v → (s.setVolume v).1.getVolume = 100) ∧
      (0 ≤ v → v ≤ 100 → (s.setVolume v).1.getVolume = v) ∧
      (s.isEnd = false →
        (s.setVolume v).2 = [Call.setVolume (((max 0 (min v 100) : Int) : ℚ) / 100)]) := by
  have hv : (s.setVolume v).1.getVolume = clamp v 0 100 := by
    unfold Audio.setVolume Audio.getVolume
    cases he : s.m_end <;> simp [he]
  have hc : clamp v 0 100 = max 0 (min v 100) := clamp_eq_max_min v 0 100 (by decide)
  refine ⟨hv.trans hc, ?_, ?_, ?_, ?_⟩
  · intro h
    rw [hv, hc]
    omega
  · intro h
    rw [hv, hc]
    omega
  · intro h0 h1
    rw [hv, hc]
    omega
  · intro he
    have he1 : s.m_end = false := he
    unfold Audio.setVolume
    simp [he1, hc]

/-! ## `setTime` -/

theorem clamp_of_ge_hi {α : Type} [LinearOrder α] (v lo hi : α) (h : lo ≤ hi) (hv : hi ≤ v) :
    clamp v lo hi = hi := by
  rw [clamp_eq_max_min v lo hi h, min_eq_right hv, max_eq_right h]

theorem unsignedSub_one (n : Nat) (h1 : 1 ≤ n) (h2 : n < 4294967296) :
    unsignedSub n 1 = n - 1 := by
  unfold unsignedSub
  omega

/-- On an ended session `setTime` issues no backend call and changes nothing. -/
theorem setTime_ended (s : Audio) (t : ℚ) (he : s.isEnd = true) : s.setTime t = (s, []) := by
  have he1 : s.m_end = true := he
  unfold Audio.setTime
  simp [he1]

/-- On a session that has not ended, a clamped time below the duration is
sought in milliseconds, rounded down, by the one backend call made. -/
theorem setTime_below_duration (s : Audio) (t : ℚ) (he : s.isEnd = false)
    (hlt : clamp t 0 s.getDuration < s.getDuration) :
    (s.setTime t).2 =
      [Call.setPosition (Int.toNat ⌊clamp t 0 s.getDuration * 1000⌋) TimeUnit.MS] := by
  have he1 : s.m_end = false := he
  have hlt1 : clamp t 0 s.m_duration < s.m_duration := hlt
  unfold Audio.setTime
  simp only [he1, Bool.not_false, if_true, if_pos hlt1]
  rfl

/-- On a session that has not ended, a time clamped to the duration is sought
in samples, at the length of the stream minus one modulo `2 ^ 32`. -/
theorem setTime_at_duration (s : Audio) (t : ℚ) (he : s.isEnd = false)
    (hD : 0 ≤ s.getDuration) (ht : s.getDuration ≤ t) :
    s.setTime t =
      ({ s with
          m_pChannel := s.m_pChannel.map fun c =>
            { c with position := unsignedSub s.endPos 1, positionUnit := TimeUnit.PCM } },
       [Call.getLength TimeUnit.PCM, Call.setPosition (unsignedSub s.endPos 1) TimeUnit.PCM]) := by
  have he1 : s.m_end = false := he
  have hc : clamp t 0 s.m_duration = s.m_duration := clamp_of_ge_hi t 0 s.m_duration hD ht
  unfold Audio.setTime
  simp only [he1, Bool.not_false, if_true, hc, lt_irrefl, if_false]

/-- With a stream of at least one sample the position sought at the duration is
the last sample, inside the stream. -/
theorem setTime_at_duration_inside (s : Audio) (t : ℚ) (he : s.isEnd = false)
    (hD : 0 ≤ s.getDuration) (ht : s.getDuration ≤ t) (h1 : 1 ≤ s.endPos)
    (h2 : s.endPos < 4294967296) :
    (s.setTime t).2 =
        [Call.getLength TimeUnit.PCM, Call.setPosition (s.endPos - 1) TimeUnit.PCM] ∧
      s.endPos - 1 < s.endPos := by
  rw [setTime_at_duration s t he hD ht, unsignedSub_one s.endPos h1 h2]
  exact ⟨rfl, by omega⟩

/-- C4, the code at the failing input: a session that has not ended, on a
stream of `0` samples (duration `0`), asked to seek to time `0`, seeks in
samples to `4294967295`, which is not below the length `0` of the stream. -/
theorem setTime_wraps_on_empty_stream :
    emptyStreamSession.isEnd = false ∧ emptyStreamSession.getDuration = 0 ∧
      emptyStreamSession.endPos = 0 ∧
      (emptyStreamSession.setTime 0).2 =
        [Call.getLength TimeUnit.PCM, Call.setPosition 4294967295 TimeUnit.PCM] ∧
      ¬ (4294967295 < emptyStreamSession.endPos) := by
  have hD : emptyStreamSession.getDuration = 0 := by
    show ((0 : Nat) : ℚ) / 1000 = 0
    norm_num
  refine ⟨rfl, hD, rfl, ?_, by decide⟩
  rw [setTime_at_duration emptyStreamSession 0 rfl (le_of_eq hD.symm) (le_of_eq hD)]
  rfl

/-- C3, counterexample: on the one-second stream of 44100 samples (1000 ms at
44100 samples a second), `setTime 1` (the duration) followed by `getTime`, the
backend reporting the sought sample 44099 as 999 whole milliseconds, returns
`999 / 1000`, not the duration `1`. -/
theorem seek_to_end_reads_below_duration :
    loadedSession.isEnd = false ∧ loadedSession.getDuration = 1 ∧
      loadedSession.getDuration ≤ 1 ∧
      samplesToMs 44100 oneSecond.lengthPcm = oneSecond.lengthMs ∧
      (loadedSession.setTime 1).1.getTime
          ((loadedSession.setTime 1).1.reportedPosition (samplesToMs 44100)) = 999 / 1000 ∧
      (loadedSession.setTime 1).1.getTime
          ((loadedSession.setTime 1).1.reportedPosition (samplesToMs 44100)) ≠
        loadedSession.getDuration := by
  have hD : loadedSession.getDuration = 1 := by
    show ((1000 : Nat) : ℚ) / 1000 = 1
    norm_num
  have hset := setTime_at_duration loadedSession 1 rfl (by rw [hD]; norm_num) (le_of_eq hD)
  have hpos : (loadedSession.setTime 1).1.reportedPosition (samplesToMs 44100) = 999 := by
    rw [hset]
    decide
  have hget : (loadedSession.setTime 1).1.getTime 999 = 999 / 1000 := by
    rw [hset]
    show (if ((999 : Nat) : ℚ) / 1000 ≤ loadedSession.getDuration then ((999 : Nat) : ℚ) / 1000
      else loadedSession.getDuration) = 999 / 1000
    rw [hD]
    norm_num
  refine ⟨rfl, hD, le_of_eq hD, by decide, ?_, ?_⟩
  · rw [hpos, hget]
  · rw [hpos, hget, hD]
    norm_num

/-- C3, amended: for a reachable session that has not ended, on a stream of
`L` samples with `1 ≤ L < 2 ^ 32`, and a seek input at or above the duration
`D`, `setTime` followed at once by `getTime`, the backend reporting the sought
sample `L - 1` as `m` whole milliseconds, returns the smaller of `m / 1000` and
`D`: a value in `[0, D]` that is `D` exactly when `D ≤ m / 1000`. -/
theorem seek_to_end_then_getTime (s : Audio) (snd : Sound) (t : ℚ) (toMs : Nat → Nat)
    (hr : Reachable s) (he : s.isEnd = false) (hs : s.m_pSound = some snd)
    (h1 : 1 ≤ snd.lengthPcm) (h2 : snd.lengthPcm < 4294967296) (ht : s.getDuration ≤ t) :
    (s.setTime t).1.getTime ((s.setTime t).1.reportedPosition toMs) =
        min ((toMs (snd.lengthPcm - 1) : ℚ) / 1000) s.getDuration ∧
      0 ≤ (s.setTime t).1.getTime ((s.setTime t).1.reportedPosition toMs) ∧
      (s.setTime t).1.getTime ((s.setTime t).1.reportedPosition toMs) ≤ s.getDuration ∧
      ((s.setTime t).1.getTime ((s.setTime t).1.reportedPosition toMs) = s.getDuration ↔
        s.getDuration ≤ (toMs (snd.lengthPcm - 1) : ℚ) / 1000) := by
  have he1 : s.m_end = false := he
  obtain ⟨hD, hload⟩ := reachable_inv hr
  obtain ⟨c, hc⟩ := Option.isSome_iff_exists.mp (hload he1).2
  have hend : s.endPos = snd.lengthPcm := by
    unfold Audio.endPos
    rw [hs]
  have hpos : (s.setTime t).1.reportedPosition toMs = toMs (snd.lengthPcm - 1) := by
    rw [setTime_at_duration s t he hD ht, hend, unsignedSub_one _ h1 h2]
    unfold Audio.reportedPosition
    simp [hc, Channel.positionMs]
  have hget : ∀ p : Nat, (s.setTime t).1.getTime p = min ((p : ℚ) / 1000) s.getDuration := by
    intro p
    rw [setTime_at_duration s t he hD ht]
    unfold Audio.getTime Audio.getDuration
    simp only [he1, Bool.not_false, if_true]
    by_cases hle : (p : ℚ) / 1000 ≤ s.m_duration
    · rw [if_pos hle, min_eq_left hle]
    · rw [if_neg hle, min_eq_right (le_of_lt (not_le.mp hle))]
  have hm : (0 : ℚ) ≤ (toMs (snd.lengthPcm - 1) : ℚ) / 1000 := by positivity
  rw [hpos, hget]
  refine ⟨rfl, le_min hm hD, min_le_right _ _, ?_⟩
  exact min_eq_right_iff

/-- C3 amended, at the one-second stream with the seek input `5`. -/
theorem seek_to_end_then_getTime_witness :
    Reachable loadedSession ∧ loadedSession.isEnd = false ∧
      loadedSession.m_pSound = some oneSecond ∧ 1 ≤ oneSecond.lengthPcm ∧
      oneSecond.lengthPcm < 4294967296 ∧ loadedSession.getDuration ≤ 5 ∧
      (loadedSession.setTime 5).1.getTime
          ((loadedSession.setTime 5).1.reportedPosition (samplesToMs 44100)) ≤
        loadedSession.getDuration :=
  have hD : loadedSession.getDuration ≤ 5 := by
    show ((1000 : Nat) : ℚ) / 1000 ≤ 5
    norm_num
  ⟨reachable_loadedSession, rfl, rfl, by decide, by decide, hD,
    (seek_to_end_then_getTime loadedSession oneSecond 5 (samplesToMs 44100)
      reachable_loadedSession rfl rfl (by decide) (by decide) hD).2.2.1⟩

/-! ## The resolver -/

theorem isSupportedType_of_extension (entry : DirEntry)
    (h : entry.isRegularFile = true → 1 ≤ (extension entry.filename).length) :
    isSupportedType entry = Except.ok (keptEntry entry) := by
  unfold isSupportedType keptEntry
  cases hr : entry.isRegularFile
  · simp
  · have h1 : ¬ (1 > (extension entry.filename).length) := not_lt.mpr (h hr)
    simp only [if_true, substr, if_neg h1, Bool.true_and]
    split <;> simp_all

theorem getMusicListLoop_of_extensions (entries : List DirEntry) (musicList : List String)
    (h : ∀ entry ∈ entries, entry.isRegularFile = true → 1 ≤ (extension entry.filename).length) :
    getMusicListLoop musicList entries =
      Except.ok (musicList ++ (entries.filter keptEntry).map DirEntry.filename) := by
  induction entries generalizing musicList with
  | nil => simp [getMusicListLoop]
  | cons entry rest ih =>
    have hrest : ∀ e ∈ rest, e.isRegularFile = true → 1 ≤ (extension e.filename).length :=
      fun e he => h e (List.mem_cons_of_mem _ he)
    have hentry := isSupportedType_of_extension entry (h entry (List.mem_cons_self _ _))
    unfold getMusicListLoop
    rw [hentry]
    cases hk : keptEntry entry
    · simp only [List.filter_cons, hk]
      exact ih musicList hrest
    · simp only [List.filter_cons, hk, if_true, List.map_cons]
      rw [ih (musicList ++ [entry.filename]) hrest]
      simp

/-- When every regular file of the listing has an extension, `getMusicList`
returns the kept entries, in the order of the listing. -/
theorem getMusicList_of_extensions (entries : List DirEntry)
    (h : ∀ entry ∈ entries, entry.isRegularFile = true → 1 ≤ (extension entry.filename).length) :
    getMusicList entries = Except.ok ((entries.filter keptEntry).map DirEntry.filename) := by
  unfold getMusicList
  rw [getMusicListLoop_of_extensions entries [] h]
  simp

/-- The resolver example: of `a.WAV`, `b.txt`, `c.flac`, `d.mp4` the result is
`a.WAV`, `c.flac`. -/
theorem getMusicList_example :
    getMusicList exampleDirectory = Except.ok ["a.WAV", "c.flac"] := by
  rfl

/-- C7, the code at the failing input: for the listing `a.WAV`, `README`,
`c.flac` of regular files, `getMusicList` does not return a list: `substr(1)`
of the empty extension of `README` throws `std::out_of_range`. -/
theorem getMusicList_throws_without_extension :
    extension "README" = "" ∧
      isSupportedType { filename := "README", isRegularFile := true } =
        Except.error Exn.out_of_range ∧
      getMusicList sampleDirectory = Except.error Exn.out_of_range := by
  refine ⟨by decide, ?_, ?_⟩ <;> rfl

/-! ## The control loop -/

theorem trackAt_inside (musicList : List String) (index : Int) (h0 : 0 ≤ index)
    (h1 : index < musicList.length) : ∃ file, trackAt musicList index = some file := by
  unfold trackAt
  rw [if_pos h0]
  have h : index.toNat < musicList.length := by omega
  exact ⟨musicList[index.toNat], List.getElem?_eq_getElem h⟩

theorem clamp_index (index : Int) (musicList : List String) (hn : musicList ≠ []) :
    0 ≤ clamp index 0 (lastIndex musicList) ∧
      clamp index 0 (lastIndex musicList) < musicList.length := by
  have hlen : 0 < musicList.length := List.length_pos.mpr hn
  have hlo : (0 : Int) ≤ lastIndex musicList := by
    unfold lastIndex
    omega
  refine ⟨clamp_ge index 0 _ hlo, ?_⟩
  have hle := clamp_le index 0 _ hlo
  unfold lastIndex at hle
  unfold lastIndex
  omega

/-- With the index inside the list, the common end of the track-changing keys
loads the track at the index and leaves the session as paused as it was. -/
theorem reload_inside (backend : String → Sound) (p : Player) (h0 : 0 ≤ p.index)
    (h1 : p.index < p.musicList.length) :
    ∃ q, reload backend p = some q ∧ q.index = p.index ∧ q.musicList = p.musicList ∧
      q.audio.isPaused = p.audio.isPaused ∧
      q.audio.m_pChannel.map Channel.paused = some p.audio.isPaused ∧
      q.audio.isEnd = false ∧
      trackAt p.musicList p.index = some q.audio.getFileName := by
  obtain ⟨file, hfile⟩ := trackAt_inside p.musicList p.index h0 h1
  unfold reload loadCurrent
  rw [hfile]
  cases hp : p.audio.isPaused
  · exact ⟨_, rfl, rfl, rfl, rfl, rfl, rfl, rfl⟩
  · exact ⟨_, rfl, rfl, rfl, rfl, rfl, rfl, rfl⟩

theorem handleCommand_next (backend : String → Sound) (position : Nat)
    (gen : List String → List String) (p : Player) :
    handleCommand backend position gen 'n' p =
      reload backend { p with index := clamp (p.index + 1) 0 (lastIndex p.musicList) } := by
  unfold handleCommand
  simp

theorem handleCommand_previous (backend : String → Sound) (position : Nat)
    (gen : List String → List String) (p : Player) :
    handleCommand backend position gen 'p' p =
      reload backend { p with index := clamp (p.index - 1) 0 (lastIndex p.musicList) } := by
  unfold handleCommand
  simp

theorem handleCommand_shuffle (backend : String → Sound) (position : Nat)
    (gen : List String → List String) (p : Player) :
    handleCommand backend position gen 'a' p =
      reload backend { p with musicList := gen p.musicList, index := 0 } := by
  unfold handleCommand
  simp

theorem tickAdvance_ended (backend : String → Sound) (p : Player) (he : p.audio.isEnd = true)
    (hn : p.musicList ≠ []) :
    ∃ q, tickAdvance backend p = some q ∧ q.musicList = p.musicList ∧
      q.index = clamp (p.index + 1) 0 (lastIndex p.musicList) ∧
      trackAt q.musicList q.index = some q.audio.getFileName ∧
      q.audio.isPaused = false := by
  obtain ⟨h0, h1⟩ := clamp_index (p.index + 1) p.musicList hn
  obtain ⟨file, hfile⟩ := trackAt_inside p.musicList _ h0 h1
  unfold tickAdvance loadCurrent
  rw [if_pos he]
  simp only [hfile]
  exact ⟨_, rfl, rfl, rfl, hfile, rfl⟩

/-- C8: for a track list of `n` entries and an index `i` with `0 ≤ i < n`, the
key `n` and the end-of-track advance of the tick loop set the index to
`min (i + 1) (n - 1)`, the key `p` sets it to `max (i - 1) 0`; the new index is
inside `[0, n - 1]` and the track looked up at it exists (it is the one
loaded). -/
theorem next_previous_stay_inside (backend : String → Sound) (position : Nat)
    (gen : List String → List String) (p : Player) (h0 : 0 ≤ p.index)
    (h1 : p.index < p.musicList.length) :
    (∃ q, handleCommand backend position gen 'n' p = some q ∧ q.musicList = p.musicList ∧
        q.index = min (p.index + 1) ((p.musicList.length : Int) - 1) ∧
        0 ≤ q.index ∧ q.index < p.musicList.length ∧
        trackAt q.musicList q.index = some q.audio.getFileName) ∧
      (∃ q, handleCommand backend position gen 'p' p = some q ∧ q.musicList = p.musicList ∧
        q.index = max (p.index - 1) 0 ∧
        0 ≤ q.index ∧ q.index < p.musicList.length ∧
        trackAt q.musicList q.index = some q.audio.getFileName) ∧
      (p.audio.isEnd = true →
        ∃ q, tickAdvance backend p = some q ∧ q.musicList = p.musicList ∧
          q.index = min (p.index + 1) ((p.musicList.length : Int) - 1) ∧
          0 ≤ q.index ∧ q.index < p.musicList.length ∧
          trackAt q.musicList q.index = some q.audio.getFileName) := by
  have hn : p.musicList ≠ [] := by
    intro hnil
    rw [hnil] at h1
    simp only [List.length_nil, Nat.cast_zero] at h1
    omega
  have hlo : (0 : Int) ≤ lastIndex p.musicList := by
    unfold lastIndex
    omega
  have hnext : clamp (p.index + 1) 0 (lastIndex p.musicList) =
      min (p.index + 1) ((p.musicList.length : Int) - 1) := by
    rw [clamp_eq_max_min _ _ _ hlo]
    unfold lastIndex
    omega
  have hprev : clamp (p.index - 1) 0 (lastIndex p.musicList) = max (p.index - 1) 0 := by
    rw [clamp_eq_max_min _ _ _ hlo]
    unfold lastIndex
    omega
  obtain ⟨hn0, hn1⟩ := clamp_index (p.index + 1) p.musicList hn
  obtain ⟨hp0, hp1⟩ := clamp_index (p.index - 1) p.musicList hn
  refine ⟨?_, ?_, ?_⟩
  · obtain ⟨q, hq, hi, hl, _, _, _, ht⟩ := reload_inside backend
      { p with index := clamp (p.index + 1) 0 (lastIndex p.musicList) } hn0 hn1
    refine ⟨q, ?_, hl, hi.trans hnext, ?_, ?_, ?_⟩
    · rw [handleCommand_next]
      exact hq
    · rw [hi]
      exact hn0
    · rw [hi]
      exact hn1
    · rw [hl, hi]
      exact ht
  · obtain ⟨q, hq, hi, hl, _, _, _, ht⟩ := reload_inside backend
      { p with index := clamp (p.index - 1) 0 (lastIndex p.musicList) } hp0 hp1
    refine ⟨q, ?_, hl, hi.trans hprev, ?_, ?_, ?_⟩
    · rw [handleCommand_previous]
      exact hq
    · rw [hi]
      exact hp0
    · rw [hi]
      exact hp1
    · rw [hl, hi]
      exact ht
  · intro he
    obtain ⟨q, hq, hl, hi, ht, _⟩ := tickAdvance_ended backend p he hn
    refine ⟨q, hq, hl, hi.trans hnext, ?_, ?_, ht⟩
    · rw [hi]
      exact hn0
    · rw [hi]
      exact hn1

/-- C8 at three tracks with the index at the last one: `n` stays at `2`. -/
theorem next_previous_stay_inside_witness :
    0 ≤ samplePlayer.index ∧ samplePlayer.index < samplePlayer.musicList.length ∧
      ∃ q, handleCommand sampleBackend 0 id 'n' samplePlayer = some q ∧
        q.musicList = samplePlayer.musicList ∧
        q.index = min (samplePlayer.index + 1) ((samplePlayer.musicList.length : Int) - 1) ∧
        0 ≤ q.index ∧ q.index < samplePlayer.musicList.length ∧
        trackAt q.musicList q.index = some q.audio.getFileName :=
  ⟨by decide, by decide,
    (next_previous_stay_inside sampleBackend 0 id samplePlayer (by decide) (by decide)).1⟩

/-- C9: for every non-empty track list and every session state, handling the
key `n`, `p` or `a` (the shuffle being a permutation of the list) yields a
state, in which the paused flag of the session is what it was before the key,
and the channel of the newly loaded track is paused or not accordingly. -/
theorem track_keys_keep_paused (backend : String → Sound) (position : Nat)
    (gen : List String → List String) (command : Char) (p : Player)
    (hn : p.musicList ≠ []) (hg : List.Perm (gen p.musicList) p.musicList)
    (hk : command = 'n' ∨ command = 'p' ∨ command = 'a') :
    ∃ q, handleCommand backend position gen command p = some q ∧
      q.audio.isPaused = p.audio.isPaused ∧
      q.audio.m_pChannel.map Channel.paused = some p.audio.isPaused := by
  rcases hk with hk | hk | hk
  · subst hk
    obtain ⟨h0, h1⟩ := clamp_index (p.index + 1) p.musicList hn
    obtain ⟨q, hq, _, _, hp, hc, _, _⟩ := reload_inside backend
      { p with index := clamp (p.index + 1) 0 (lastIndex p.musicList) } h0 h1
    exact ⟨q, by rw [handleCommand_next]; exact hq, hp, hc⟩
  · subst hk
    obtain ⟨h0, h1⟩ := clamp_index (p.index - 1) p.musicList hn
    obtain ⟨q, hq, _, _, hp, hc, _, _⟩ := reload_inside backend
      { p with index := clamp (p.index - 1) 0 (lastIndex p.musicList) } h0 h1
    exact ⟨q, by rw [handleCommand_previous]; exact hq, hp, hc⟩
  · subst hk
    have hlen : 0 < (gen p.musicList).length := by
      rw [hg.length_eq]
      exact List.length_pos.mpr hn
    have h1 : ((0 : Int)) < ((gen p.musicList).length : Int) := by
      exact_mod_cast hlen
    obtain ⟨q, hq, _, _, hp, hc, _, _⟩ := reload_inside backend
      { p with musicList := gen p.musicList, index := 0 } (le_refl _) h1
    exact ⟨q, by rw [handleCommand_shuffle]; exact hq, hp, hc⟩

/-- C9 at three tracks, a playing session and the key `a`, the shuffle
reversing the list. -/
theorem track_keys_keep_paused_witness :
    samplePlayer.musicList ≠ [] ∧
      List.Perm (List.reverse samplePlayer.musicList) samplePlayer.musicList ∧
      ∃ q, handleCommand sampleBackend 0 List.reverse 'a' samplePlayer = some q ∧
        q.audio.isPaused = samplePlayer.audio.isPaused ∧
        q.audio.m_pChannel.map Channel.paused = some samplePlayer.audio.isPaused :=
  ⟨by decide, List.reverse_perm _,
    track_keys_keep_paused sampleBackend 0 List.reverse 'a' samplePlayer (by decide)
      (List.reverse_perm _) (Or.inr (Or.inr rfl))⟩

/-! ## Stream releases -/

/-- In a reachable state the release `load` issues, if any, targets the sound of
a session that has not ended, and that sound exists. -/
theorem load_releases_live_stream (file : String) (snd : Sound) (s : Audio)
    (hr : Reachable s) (target : Option Sound)
    (h : Call.release target ∈ (s.load file snd).2) :
    s.isEnd = false ∧ target = s.m_pSound ∧ s.m_pSound.isSome = true := by
  unfold Audio.load at h
  cases he : s.m_end
  · have ht : target = s.m_pSound := by
      cases hl : s.m_loop <;> simpa [he, hl] using h
    exact ⟨he, ht, ((reachable_inv hr).2 he).1⟩
  · exfalso
    cases hl : s.m_loop <;> simp [he, hl] at h

/-- C10, the code at the failing inputs: destroying a session that never
loaded a file issues a release, of the null sound (this is the exit of `wmain`
on an empty directory), and destroying a session whose track has ended issues
a release of the ended stream. -/
theorem destroy_releases_unconditionally :
    Audio.new.destroy = [Call.release none] ∧
      wmainStart sampleBackend [] = Except.ok (Sum.inl (1, [Call.release none])) ∧
      endedSession.isEnd = true ∧
      endedSession.destroy = [Call.release (some oneSecond)] :=
  ⟨rfl, rfl, rfl, rfl⟩

end AudioSystem
